import Mathlib

/-!
Verification development for the Resume-Analyzer repository.

This file gives a shallow embedding, in Lean 4, of the algorithmic core of
the repository:

* `src/ai/resume_analyzer.py` — the response-parsing pipeline
  (`_extract_score_from_response`) and the resume-content truncation in
  `_create_user_prompt`;
* `src/sheets/resume_converter.py` — the byte-signature format sniffer
  (`_detect_file_type`) and the plain-text extractor
  (`_extract_text_from_txt`);
* `src/sheets/resume_extractor.py` — the entry point `extract_content`
  and the local-file reader `_extract_from_file`.

Python strings are modelled as `List Char` (or Lean `String`, whose data
is a `List Char`), byte sequences as `List Nat` (each element < 256),
exceptions as `Except String`, and the file system / network as explicit
environment records.  Library calls (`json.loads`, `str.find`, `int(...)`,
UTF-8 decoding) are modelled faithfully for the ASCII fragment exercised
here; the models note where they restrict the library behaviour
(e.g. Python `int()` also accepts non-ASCII digits, which no claim
exercises).
-/

/-! ## Python helpers shared by several embeddings -/

/-- ASCII whitespace stripped by Python `str.strip()` / `int(str)`
(space, tab, LF, CR, vertical tab, form feed). -/
def pyWs (c : Char) : Bool :=
  c = ' ' || c = '\t' || c = '\n' || c = '\r' || c = '\x0b' || c = '\x0c'

/-- Python `str.strip()` on a character list (ASCII whitespace model). -/
def pyStrip (l : List Char) : List Char :=
  ((l.dropWhile pyWs).reverse.dropWhile pyWs).reverse

/-- Digit value of an ASCII digit character. -/
def digVal (c : Char) : Nat := c.toNat - 48

/-- Digits-with-underscores tail for Python `int(str)`: after the first
digit, an underscore must be followed by a digit (`1_0` is legal,
`1__0` and `1_` are not). -/
def pyDigitsAux : List Char → Nat → Option Nat
  | [], acc => some acc
  | '_' :: r, acc =>
    match r with
    | d :: r2 => if d.isDigit then pyDigitsAux r2 (acc * 10 + digVal d) else none
    | [] => none
  | d :: r, acc => if d.isDigit then pyDigitsAux r (acc * 10 + digVal d) else none

/-- Digit sequence for Python `int(str)`: at least one digit, with
single underscores allowed between digits. -/
def pyDigits : List Char → Option Nat
  | [] => none
  | d :: r => if d.isDigit then pyDigitsAux r (digVal d) else none

/-- Python `int(str)` on a character list: optional surrounding
whitespace, optional sign, then base-10 digits with optional single
underscores between digits.  `none` models a raised `ValueError`.
(Model restriction: real Python also accepts non-ASCII decimal digits;
no input in this development contains any.) -/
def pyInt (l : List Char) : Option Int :=
  match pyStrip l with
  | '-' :: r => (pyDigits r).map (fun n => -(Int.ofNat n))
  | '+' :: r => (pyDigits r).map Int.ofNat
  | r => (pyDigits r).map Int.ofNat

/-- Python `int(str)` on a Lean `String`. -/
def pyIntOfString (s : String) : Option Int := pyInt s.data

/-- Python `a.startswith(b)` / `bytes.startswith`. -/
def pyStartsWith {α : Type} [BEq α] (l pre : List α) : Bool :=
  List.isPrefixOf pre l

/-- Python `a.endswith(b)` for strings. -/
def pyEndsWith (s pat : String) : Bool :=
  List.isSuffixOf pat.data s.data

/-- Python `s.replace(c, '')`: remove every occurrence of character `c`. -/
def pyRemoveAll (s : String) (c : Char) : String :=
  String.mk (s.data.filter (fun x => x ≠ c))

/-- Python `s.split('\n')` (always at least one piece). -/
def splitNl : List Char → List (List Char)
  | [] => [[]]
  | '\n' :: r => [] :: splitNl r
  | c :: r =>
    match splitNl r with
    | h :: t => (c :: h) :: t
    | [] => [[c]]

/-- Python `'\n'.join(pieces)`. -/
def joinNl (ls : List (List Char)) : List Char :=
  List.intercalate ['\n'] ls

/-! ## JSON values and `json.loads`

`_extract_score_from_response` calls `json.loads` on the brace-delimited
substring it extracts.  The model below implements the `json.loads`
grammar (objects, arrays, strings with escapes, numbers, `true`/`false`/
`null`, strict control-character rejection, no extra data) over
`List Char`.  Non-integer numbers are kept symbolically as
mantissa/exponent pairs; Python's `NaN`/`Infinity` extensions and
surrogate-pair combining in `\uXXXX` escapes are not modelled (no claim
exercises them). -/

inductive JsonVal where
  | null
  | bool (b : Bool)
  | num (n : Int)
  | fnum (mant : Int) (ex : Int)
  | str (s : String)
  | arr (xs : List JsonVal)
  | obj (kvs : List (String × JsonVal))

/-- JSON insignificant whitespace (exactly the four characters
`json.loads` skips). -/
def jsonWs (c : Char) : Bool :=
  c = ' ' || c = '\t' || c = '\n' || c = '\r'

/-- Skip JSON whitespace. -/
def jpSkipWs (l : List Char) : List Char := l.dropWhile jsonWs

/-- Value of one hexadecimal digit. -/
def hexVal (c : Char) : Option Nat :=
  if '0' ≤ c ∧ c ≤ '9' then some (c.toNat - 48)
  else if 'a' ≤ c ∧ c ≤ 'f' then some (c.toNat - 87)
  else if 'A' ≤ c ∧ c ≤ 'F' then some (c.toNat - 55)
  else none

/-- JSON string body after the opening quote: returns the decoded string
and the remainder after the closing quote.  Unescaped control characters
are rejected (Python `strict=True` default). -/
def jstrAux : List Char → List Char → Option (String × List Char)
  | [], _ => none
  | '"' :: r, acc => some (String.mk acc.reverse, r)
  | '\\' :: e :: r, acc =>
    if e = '"' then jstrAux r ('"' :: acc)
    else if e = '\\' then jstrAux r ('\\' :: acc)
    else if e = '/' then jstrAux r ('/' :: acc)
    else if e = 'b' then jstrAux r ('\x08' :: acc)
    else if e = 'f' then jstrAux r ('\x0c' :: acc)
    else if e = 'n' then jstrAux r ('\n' :: acc)
    else if e = 'r' then jstrAux r ('\r' :: acc)
    else if e = 't' then jstrAux r ('\t' :: acc)
    else if e = 'u' then
      match r with
      | h1 :: h2 :: h3 :: h4 :: r2 =>
        match hexVal h1, hexVal h2, hexVal h3, hexVal h4 with
        | some a, some b, some c, some d =>
          jstrAux r2 (Char.ofNat (((a * 16 + b) * 16 + c) * 16 + d) :: acc)
        | _, _, _, _ => none
      | _ => none
    else none
  | c :: r, acc => if c.toNat < 32 then none else jstrAux r (c :: acc)

/-- Base-10 value of a digit list (used for JSON number tokens). -/
def digitsToNat (ds : List Char) : Nat :=
  ds.foldl (fun a c => a * 10 + (c.toNat - 48)) 0

/-- JSON number token: `-? int frac? exp?` with `int = 0 | [1-9][0-9]*`.
Pure integers become `.num`; anything with a fraction or exponent becomes
`.fnum mant ex` (value `mant * 10 ^ ex`). -/
def parseJNum (l : List Char) : Option (JsonVal × List Char) :=
  let (neg, l1) := match l with
    | '-' :: r => (true, r)
    | r => (false, r)
  let (ids, l2) := l1.span Char.isDigit
  if ids.isEmpty then none
  else if ids.length > 1 ∧ ids.headD '0' = '0' then none
  else
    let (fds, l3) := match l2 with
      | '.' :: r => r.span Char.isDigit
      | r => ([], r)
    if l2.headD ' ' = '.' ∧ fds.isEmpty then none
    else
      let (hasExp, esign, eds, l4) := match l3 with
        | 'e' :: '-' :: r => (true, true, (r.span Char.isDigit).1, (r.span Char.isDigit).2)
        | 'e' :: '+' :: r => (true, false, (r.span Char.isDigit).1, (r.span Char.isDigit).2)
        | 'e' :: r => (true, false, (r.span Char.isDigit).1, (r.span Char.isDigit).2)
        | 'E' :: '-' :: r => (true, true, (r.span Char.isDigit).1, (r.span Char.isDigit).2)
        | 'E' :: '+' :: r => (true, false, (r.span Char.isDigit).1, (r.span Char.isDigit).2)
        | 'E' :: r => (true, false, (r.span Char.isDigit).1, (r.span Char.isDigit).2)
        | r => (false, false, [], r)
      if hasExp ∧ eds.isEmpty then none
      else
        let mag : Int := Int.ofNat (digitsToNat (ids ++ fds))
        let m : Int := if neg then -mag else mag
        let e : Int := (if esign then -(Int.ofNat (digitsToNat eds))
                        else Int.ofNat (digitsToNat eds)) - Int.ofNat fds.length
        if fds.isEmpty ∧ ¬hasExp then some (.num m, l2)
        else some (.fnum m e, l4)

/-- Parsing task for the fuelled JSON reader: a value, the members of an
object (first member onward), or the items of an array. -/
inductive JTask where
  | value (l : List Char)
  | members (l : List Char) (acc : List (String × JsonVal))
  | items (l : List Char) (acc : List JsonVal)

/-- Result of one parsing task. -/
inductive JOut where
  | v (x : JsonVal)
  | m (kvs : List (String × JsonVal))
  | i (xs : List JsonVal)

/-- Fuelled JSON reader (structural recursion on the fuel, so that it
reduces inside the kernel).  Every recursive call consumes at least one
input character, so fuel `length + 1` always suffices. -/
def jrun : Nat → JTask → Option (JOut × List Char)
  | 0, _ => none
  | fuel + 1, .value l =>
    match jpSkipWs l with
    | '{' :: r =>
      match jpSkipWs r with
      | '}' :: r2 => some (.v (.obj []), r2)
      | r2 =>
        match jrun fuel (.members r2 []) with
        | some (.m kvs, rest) => some (.v (.obj kvs), rest)
        | _ => none
    | '[' :: r =>
      match jpSkipWs r with
      | ']' :: r2 => some (.v (.arr []), r2)
      | r2 =>
        match jrun fuel (.items r2 []) with
        | some (.i xs, rest) => some (.v (.arr xs), rest)
        | _ => none
    | '"' :: r => (jstrAux r []).map (fun p => (.v (.str p.1), p.2))
    | 't' :: 'r' :: 'u' :: 'e' :: r => some (.v (.bool true), r)
    | 'f' :: 'a' :: 'l' :: 's' :: 'e' :: r => some (.v (.bool false), r)
    | 'n' :: 'u' :: 'l' :: 'l' :: r => some (.v .null, r)
    | l2 => (parseJNum l2).map (fun p => (.v p.1, p.2))
  | fuel + 1, .members l acc =>
    match jpSkipWs l with
    | '"' :: r =>
      match jstrAux r [] with
      | some (k, r2) =>
        match jpSkipWs r2 with
        | ':' :: r3 =>
          match jrun fuel (.value r3) with
          | some (.v v, r4) =>
            match jpSkipWs r4 with
            | ',' :: r5 => jrun fuel (.members r5 (acc ++ [(k, v)]))
            | '}' :: r5 => some (.m (acc ++ [(k, v)]), r5)
            | _ => none
          | _ => none
        | _ => none
      | none => none
    | _ => none
  | fuel + 1, .items l acc =>
    match jrun fuel (.value l) with
    | some (.v v, r) =>
      match jpSkipWs r with
      | ',' :: r2 => jrun fuel (.items r2 (acc ++ [v]))
      | ']' :: r2 => some (.i (acc ++ [v]), r2)
      | _ => none
    | _ => none

/-- `json.loads` on a character list: one JSON value surrounded only by
whitespace; `none` models a raised `JSONDecodeError`. -/
def jsonLoads (l : List Char) : Option JsonVal :=
  match jrun (l.length + 1) (.value l) with
  | some (.v v, rest) => if jpSkipWs rest = [] then some v else none
  | _ => none

/-- Python `dict` built from the parsed members (later duplicate keys
overwrite earlier ones), queried with `.get(k, '')` as the source does:
a missing key yields the empty string. -/
def dictGet (kvs : List (String × JsonVal)) (k : String) : JsonVal :=
  match kvs.reverse.find? (fun p => p.1.data == k.data) with
  | some p => p.2
  | none => .str ""

/-- Python truthiness of a parsed JSON value (`if value:` in the
source): `None`, `False`, `0`, `0.0`, `''`, `[]`, `{}` are falsy. -/
def pyTruthy : JsonVal → Bool
  | .null => false
  | .bool b => b
  | .num n => n != 0
  | .fnum m _ => m != 0
  | .str s => !s.data.isEmpty
  | .arr xs => !xs.isEmpty
  | .obj kvs => !kvs.isEmpty

/-! ## `ResumeAnalyzer._extract_score_from_response`
(`src/ai/resume_analyzer.py`, lines 167–247) -/

/-- `response_text.find('{')`: index of the first `'{'`, `none` for
Python's `-1`. -/
def firstBrace : List Char → Option Nat
  | [] => none
  | c :: r => if c = '{' then some 0 else (firstBrace r).map (· + 1)

/-- The brace-matching loop of `_extract_score_from_response`: walk the
text from the first brace keeping a counter (`+1` on `'{'`, `-1` on
`'}'`); when the counter returns to zero report the index one past the
closing brace (`json_end`).  `cnt` and `i` are the running counter and
index; the source starts them at `0` and the position of the first
brace (here the list is already the suffix starting at that brace, so
`i` starts at `0` and the result is the length of the matched span). -/
def braceLoop : List Char → Int → Nat → Option Nat
  | [], _, _ => none
  | c :: r, cnt, i =>
    if c = '{' then braceLoop r (cnt + 1) (i + 1)
    else if c = '}' then
      if cnt - 1 = 0 then some (i + 1) else braceLoop r (cnt - 1) (i + 1)
    else braceLoop r cnt (i + 1)

/-- Signed brace depth contribution of one character. -/
def charDepth (c : Char) : Int :=
  if c = '{' then 1 else if c = '}' then -1 else 0

/-- Net brace depth of a character list (number of `'{'` minus number of
`'}'`). -/
def depthNet (l : List Char) : Int :=
  (l.map charDepth).sum

/-- Python `\w` (ASCII model) for the fence-stripping regex. -/
def reWordChar (c : Char) : Bool :=
  ('a' ≤ c ∧ c ≤ 'z') || ('A' ≤ c ∧ c ≤ 'Z') || ('0' ≤ c ∧ c ≤ '9') || c = '_'

/-- Python `\s` (ASCII model) for the fence-stripping regex. -/
def reSpaceChar (c : Char) : Bool :=
  c = ' ' || c = '\t' || c = '\n' || c = '\r' || c = '\x0b' || c = '\x0c'

/-- Fuelled worker for `re.sub(r'```\w*\s*', '', json_str)`: whenever
three backticks occur, remove them together with the following run of
word characters and then of whitespace, and continue after the match;
all other characters are kept. -/
def sfGo : Nat → List Char → List Char
  | 0, l => l
  | fuel + 1, '`' :: '`' :: '`' :: rest =>
    sfGo fuel ((rest.dropWhile reWordChar).dropWhile reSpaceChar)
  | _ + 1, [] => []
  | fuel + 1, c :: rest => c :: sfGo fuel rest

/-- `re.sub(r'```\w*\s*', '', json_str)` from the source. -/
def stripFences (l : List Char) : List Char := sfGo l.length l

/-- The seven fields of `field_mapping` in source order. -/
def scoreFields : List String :=
  ["score", "technical_skills_match", "experience_relevance",
   "soft_skills_cultural_fit", "education_certifications",
   "career_progression", "reasoning"]

/-- Per-field validation from the extraction loop of
`_extract_score_from_response` (lines 218–245): falsy values become
`''`; `reasoning` and the exact string `"OVERQUALIFIED"` pass through;
any other value must be a string ending in `'%'` whose text with every
`'%'` removed parses as a Python int in `[0, 100]`, and is otherwise
replaced by `''`. -/
def validateStr (s : String) : JsonVal :=
  if s.data == "OVERQUALIFIED".data then .str s
  else if pyEndsWith s "%" then
    match pyIntOfString (pyRemoveAll s '%') with
    | some p => if 0 ≤ p ∧ p ≤ 100 then .str s else .str ""
    | none => .str ""
  else .str ""

def validateField (field : String) (value : JsonVal) : JsonVal :=
  if ¬pyTruthy value then .str ""
  else if field.data == "reasoning".data then value
  else
    match value with
    | .str s => validateStr s
    | _ => .str ""

/-- Record returned when `response_text.find('{') == -1`. -/
def noJsonRecord : List (String × JsonVal) :=
  [("score", .str ""), ("reasoning", .str "No JSON found")]

/-- Record returned on an unbalanced brace, a `json.loads` failure, or
any other exception inside the parser. -/
def parseErrorRecord : List (String × JsonVal) :=
  [("score", .str ""), ("reasoning", .str "Error parsing AI response")]

/-- `ResumeAnalyzer._extract_score_from_response` as a pure function
from the completion text to the returned dictionary (an association
list in Python insertion order).  The final `'score' not in ...` /
`'reasoning' not in ...` guards of the source are no-ops because the
field loop always inserts both keys. -/
def extract_score_from_response (text : List Char) : List (String × JsonVal) :=
  match firstBrace text with
  | none => noJsonRecord
  | some bs =>
    match braceLoop (text.drop bs) 0 0 with
    | none => parseErrorRecord
    | some len =>
      let jsonStr := stripFences ((text.drop bs).take len)
      match jsonLoads jsonStr with
      | none => parseErrorRecord
      | some (.obj kvs) =>
        scoreFields.map (fun f => (f, validateField f (dictGet kvs f)))
      | some _ => parseErrorRecord

/-! ## `ResumeAnalyzer._create_user_prompt` truncation
(`src/ai/resume_analyzer.py`, lines 139–144) -/

/-- `max_resume_chars` from the source. -/
def maxResumeChars : Nat := 50000

/-- The truncation marker appended by `_create_user_prompt`. -/
def truncationMarker : List Char := "... [Content truncated for length]".data

/-- The `resume_content` truncation at the top of `_create_user_prompt`:
contents longer than `max_resume_chars` are cut to the first
`max_resume_chars` characters with the marker appended.  (The
surrounding f-string that embeds the result into the full prompt is not
modelled; the claims concern only the resume text itself.) -/
def truncate_resume_content (content : List Char) : List Char :=
  if content.length > maxResumeChars then
    content.take maxResumeChars ++ truncationMarker
  else content

/-! ## `ResumeConverter._detect_file_type`
(`src/sheets/resume_converter.py`, lines 389–444)

The function reads the first 8 bytes of the file as `header`, matches
byte signatures with `header.startswith(...)`, and otherwise samples the
first 1024 bytes for a printable-ASCII ratio.  The model takes the
file's bytes directly (the `except` wrapper around a failing `open`
is not modelled; neither are the `print` calls).  The ratio comparison
`printable_count / len(content) > 0.8` is modelled exactly over the
rationals as `5 * printable_count > 4 * len`; a ZeroDivisionError on an
empty sample is swallowed by the source's inner bare `except`, landing
on `'unknown'`. -/

/-- Bytes counted by the printable-ratio fallback: printable ASCII or
tab/LF/CR. -/
def printableByte (b : Nat) : Bool :=
  (32 ≤ b ∧ b ≤ 126) || b = 9 || b = 10 || b = 13

/-- The `b'<!DOCTYPE'` signature (9 bytes). -/
def doctypeSig : List Nat := [60, 33, 68, 79, 67, 84, 89, 80, 69]

/-- The `b'<html'` signature (5 bytes). -/
def htmlSig : List Nat := [60, 104, 116, 109, 108]

/-- `ResumeConverter._detect_file_type` on the file's bytes. -/
def detect_file_type (content : List Nat) : String :=
  let header := content.take 8
  if pyStartsWith header [37, 80, 68, 70] then "pdf"
  else if pyStartsWith header [80, 75] then "docx"
  else if pyStartsWith header [0xD0, 0xCF, 0x11, 0xE0] then "doc"
  else if pyStartsWith header doctypeSig || pyStartsWith header htmlSig then "html"
  else if pyStartsWith header [0xFF, 0xD8, 0xFF] then "jpg"
  else if pyStartsWith header [0x89, 80, 78, 71, 13, 10, 0x1A, 10] then "png"
  else
    let sample := content.take 1024
    if sample.length = 0 then "unknown"
    else if 5 * (sample.countP (fun b => printableByte b)) > 4 * sample.length then "txt"
    else "unknown"

/-! ## UTF-8 decoding with `errors='ignore'`

`_extract_text_from_txt` opens the file with
`open(path, 'r', encoding=enc, errors='ignore')`.  With
`errors='ignore'` the UTF-8 decoder silently drops every ill-formed
byte; it therefore never raises, so the encoding loop of the source
never advances past `'utf-8'`.  The decoder below validates a
well-formed sequence (rejecting overlong forms and surrogates, as
CPython does) and on failure skips one byte and resumes — this yields
the same decoded text as CPython's maximal-subpart skipping, because
skipped bytes produce no output either way. -/

/-- Continuation byte test (`0x80 ≤ b ≤ 0xBF`). -/
def utf8Cont (b : Nat) : Bool := 0x80 ≤ b ∧ b ≤ 0xBF

/-- Fuelled worker for UTF-8 decoding with ill-formed bytes dropped
(`errors='ignore'`); every step consumes at least one byte, so fuel
equal to the byte count suffices. -/
def utf8IgnoreGo : Nat → List Nat → List Char
  | 0, _ => []
  | _ + 1, [] => []
  | fuel + 1, b :: rest =>
    if b < 0x80 then Char.ofNat b :: utf8IgnoreGo fuel rest
    else if 0xC2 ≤ b ∧ b ≤ 0xDF then
      match rest with
      | b2 :: r2 =>
        if utf8Cont b2 then
          Char.ofNat ((b - 0xC0) * 64 + (b2 - 0x80)) :: utf8IgnoreGo fuel r2
        else utf8IgnoreGo fuel (b2 :: r2)
      | [] => []
    else if 0xE0 ≤ b ∧ b ≤ 0xEF then
      match rest with
      | b2 :: r2 =>
        if (b = 0xE0 ∧ 0xA0 ≤ b2 ∧ b2 ≤ 0xBF)
            ∨ (0xE1 ≤ b ∧ b ≤ 0xEC ∧ utf8Cont b2)
            ∨ (b = 0xED ∧ 0x80 ≤ b2 ∧ b2 ≤ 0x9F)
            ∨ (0xEE ≤ b ∧ utf8Cont b2) then
          match r2 with
          | b3 :: r3 =>
            if utf8Cont b3 then
              Char.ofNat ((b - 0xE0) * 4096 + (b2 - 0x80) * 64 + (b3 - 0x80))
                :: utf8IgnoreGo fuel r3
            else utf8IgnoreGo fuel (b2 :: b3 :: r3)
          | [] => []
        else utf8IgnoreGo fuel (b2 :: r2)
      | [] => []
    else if 0xF0 ≤ b ∧ b ≤ 0xF4 then
      match rest with
      | b2 :: r2 =>
        if (b = 0xF0 ∧ 0x90 ≤ b2 ∧ b2 ≤ 0xBF)
            ∨ (0xF1 ≤ b ∧ b ≤ 0xF3 ∧ utf8Cont b2)
            ∨ (b = 0xF4 ∧ 0x80 ≤ b2 ∧ b2 ≤ 0x8F) then
          match r2 with
          | b3 :: r3 =>
            if utf8Cont b3 then
              match r3 with
              | b4 :: r4 =>
                if utf8Cont b4 then
                  Char.ofNat ((b - 0xF0) * 262144 + (b2 - 0x80) * 4096
                      + (b3 - 0x80) * 64 + (b4 - 0x80)) :: utf8IgnoreGo fuel r4
                else utf8IgnoreGo fuel (b2 :: b3 :: b4 :: r4)
              | [] => []
            else utf8IgnoreGo fuel (b2 :: b3 :: r3)
          | [] => []
        else utf8IgnoreGo fuel (b2 :: r2)
      | [] => []
    else utf8IgnoreGo fuel rest

/-- UTF-8 decoding with ill-formed bytes dropped (`errors='ignore'`). -/
def utf8DecodeIgnore (bytes : List Nat) : List Char :=
  utf8IgnoreGo bytes.length bytes

/-- Fuelled worker for strict UTF-8 decoding. -/
def utf8StrictGo : Nat → List Nat → Option (List Char)
  | 0, _ => some []
  | _ + 1, [] => some []
  | fuel + 1, b :: rest =>
    if b < 0x80 then (utf8StrictGo fuel rest).map (Char.ofNat b :: ·)
    else if 0xC2 ≤ b ∧ b ≤ 0xDF then
      match rest with
      | b2 :: r2 =>
        if utf8Cont b2 then
          (utf8StrictGo fuel r2).map (Char.ofNat ((b - 0xC0) * 64 + (b2 - 0x80)) :: ·)
        else none
      | [] => none
    else if 0xE0 ≤ b ∧ b ≤ 0xEF then
      match rest with
      | b2 :: b3 :: r3 =>
        if ((b = 0xE0 ∧ 0xA0 ≤ b2 ∧ b2 ≤ 0xBF)
            ∨ (0xE1 ≤ b ∧ b ≤ 0xEC ∧ utf8Cont b2)
            ∨ (b = 0xED ∧ 0x80 ≤ b2 ∧ b2 ≤ 0x9F)
            ∨ (0xEE ≤ b ∧ utf8Cont b2)) ∧ utf8Cont b3 then
          (utf8StrictGo fuel r3).map
            (Char.ofNat ((b - 0xE0) * 4096 + (b2 - 0x80) * 64 + (b3 - 0x80)) :: ·)
        else none
      | _ => none
    else if 0xF0 ≤ b ∧ b ≤ 0xF4 then
      match rest with
      | b2 :: b3 :: b4 :: r4 =>
        if ((b = 0xF0 ∧ 0x90 ≤ b2 ∧ b2 ≤ 0xBF)
            ∨ (0xF1 ≤ b ∧ b ≤ 0xF3 ∧ utf8Cont b2)
            ∨ (b = 0xF4 ∧ 0x80 ≤ b2 ∧ b2 ≤ 0x8F)) ∧ utf8Cont b3 ∧ utf8Cont b4 then
          (utf8StrictGo fuel r4).map
            (Char.ofNat ((b - 0xF0) * 262144 + (b2 - 0x80) * 4096
              + (b3 - 0x80) * 64 + (b4 - 0x80)) :: ·)
        else none
      | _ => none
    else none

/-- Strict UTF-8 decoding (`errors='strict'`): `none` models a raised
`UnicodeDecodeError`.  Used only to state what the spec's words demand
of the encoding fallback (a decoder that can refuse input). -/
def utf8DecodeStrict (bytes : List Nat) : Option (List Char) :=
  utf8StrictGo bytes.length bytes

/-- Latin-1 decoding (total: every byte maps to the code point of the
same value). -/
def latin1Decode (bytes : List Nat) : List Char :=
  bytes.map Char.ofNat

/-- Universal-newline translation performed by text-mode `open`
(`'\r\n'` and `'\r'` both become `'\n'`). -/
def nlTranslate : List Char → List Char
  | '\r' :: '\n' :: r => '\n' :: nlTranslate r
  | '\r' :: r => '\n' :: nlTranslate r
  | c :: r => c :: nlTranslate r
  | [] => []

/-! ## `ResumeConverter._extract_text_from_txt`
(`src/sheets/resume_converter.py`, lines 124–165) -/

/-- The encoding names tried by the source, in order. -/
def txtEncodings : List String := ["utf-8", "latin-1", "cp1252", "iso-8859-1"]

/-- One pass of the source's encoding loop: `open(..., encoding=enc,
errors='ignore').read()`.  Because `errors='ignore'` suppresses all
decode errors, every listed codec returns successfully; the loop
`break`s on its first iteration (utf-8).  cp1252 is modelled as
latin-1 except for its 0x80–0x9F remappings, which the loop can never
reach. -/
def readWithEncoding (enc : String) (bytes : List Nat) : Except String (List Char) :=
  if enc.data == "utf-8".data then .ok (nlTranslate (utf8DecodeIgnore bytes))
  else .ok (nlTranslate (latin1Decode bytes))

/-- The encoding loop of `_extract_text_from_txt`: take the first
encoding whose read does not raise. -/
def firstReadable : List String → List Nat → Option (List Char)
  | [], _ => none
  | enc :: rest, bytes =>
    match readWithEncoding enc bytes with
    | .ok content => some content
    | .error _ => firstReadable rest bytes

/-- The line clean-up of `_extract_text_from_txt`: split on newlines,
keep the stripped form of every line whose stripped form is non-empty,
then keep only the first 100 such lines. -/
def cleanTxtLines (content : List Char) : List (List Char) :=
  (((splitNl content).map pyStrip).filter (fun l => ¬l.isEmpty)).take 100

/-- `ResumeConverter._extract_text_from_txt` on the file's bytes.
`none` models the source's `return None` (unreadable file, empty
content, or no non-blank lines). -/
def extract_text_from_txt (bytes : List Nat) : Option (List Char) :=
  match firstReadable txtEncodings bytes with
  | none => none
  | some content =>
    if content.isEmpty then none
    else
      let cleaned := cleanTxtLines content
      if cleaned.isEmpty then none
      else some (joinNl cleaned)

/-- Modelled from the spec: the decoding step C8 describes — try
`utf-8`, `latin-1`, `cp1252`, `iso-8859-1` in order with *strict*
decoding and take the first that decodes without raising (latin-1 and
iso-8859-1 accept every byte; cp1252 is never reached on bytes latin-1
accepts).  This is the comparison definition for the refinement claim;
the source instead opens every encoding with `errors='ignore'`. -/
def specTxtDecode (bytes : List Nat) : Option (List Char) :=
  match utf8DecodeStrict bytes with
  | some content => some (nlTranslate content)
  | none => some (nlTranslate (latin1Decode bytes))

/-- Modelled from the spec: the PLAIN_TEXT extractor as C8 states it —
spec decoding step, then the same blank-line stripping and 100-line
cap. -/
def specTxtExtract (bytes : List Nat) : Option (List Char) :=
  match specTxtDecode bytes with
  | none => none
  | some content =>
    if content.isEmpty then none
    else
      let cleaned := cleanTxtLines content
      if cleaned.isEmpty then none
      else some (joinNl cleaned)

/-! ## `ResumeExtractor.extract_content` and `_extract_from_file`
(`src/sheets/resume_extractor.py`, lines 17–32 and 310–320)

The network and file system are modelled as an environment record.
`_extract_from_url` (Google-Drive rewriting, HTTP download, PDF
extraction) performs network I/O throughout and is abstracted as the
oracle `urlExtract`, which may return a result or raise; the claims
under test concern only how `extract_content` disposes of failures, so
the oracle is universally quantified. -/

/-- Environment for the extractor entry point. -/
structure ExtractEnv where
  /-- `os.path.exists` -/
  fileExists : String → Bool
  /-- `open(file_path, 'r', encoding='utf-8').read()`: may raise
  (missing permissions, decode error); `errors='ignore'` is *not*
  passed here, unlike in the converter. -/
  readFileUtf8 : String → Except String String
  /-- behaviour of `ResumeExtractor._extract_from_url` (network I/O). -/
  urlExtract : String → Except String (Option String)

/-- `ResumeExtractor._extract_from_file`: `None` for a missing path,
the file text on success, `None` if reading raises. -/
def extract_from_file (env : ExtractEnv) (file_path : String) : Option String :=
  if ¬env.fileExists file_path then none
  else
    match env.readFileUtf8 file_path with
    | .ok s => some s
    | .error _ => none

/-- `ResumeExtractor.extract_content`: empty reference → `None`;
otherwise dispatch on the `'http'` prefix inside a `try` whose
`except Exception` returns `None`.  The result is `Except.ok` in every
branch — the outer value `.error` is unreachable, which is exactly the
"never raises to its caller" shape. -/
def extract_content (env : ExtractEnv) (resume_url : String) :
    Except String (Option String) :=
  if resume_url.data.isEmpty then .ok none
  else
    match
      (if pyStartsWith resume_url.data "http".data then env.urlExtract resume_url
       else .ok (extract_from_file env resume_url)) with
    | .ok r => .ok r
    | .error _ => .ok none

/-- Does an extraction result hold non-empty text (what C1 promises for
every input)? -/
def isNonEmptyText : Except String (Option String) → Bool
  | .ok (some s) => ¬s.data.isEmpty
  | _ => false

/-! ## Lemmas about the JSON locator scan -/

theorem depthNet_nil : depthNet [] = 0 := rfl

theorem depthNet_cons (c : Char) (l : List Char) :
    depthNet (c :: l) = charDepth c + depthNet l := by
  simp [depthNet]

/-- `str.find('{')` returns `-1` exactly when no `'{'` occurs. -/
theorem firstBrace_eq_none_iff (l : List Char) :
    firstBrace l = none ↔ ∀ c ∈ l, c ≠ '{' := by
  induction l with
  | nil => simp [firstBrace]
  | cons c r ih =>
    by_cases hc : c = '{'
    · subst hc; simp [firstBrace]
    · simp only [firstBrace, if_neg hc, Option.map_eq_none', ih, List.mem_cons]
      constructor
      · intro h x hx
        rcases hx with hx | hx
        · subst hx; exact hc
        · exact h x hx
      · intro h x hx
        exact h x (Or.inr hx)

/-- A successful `find('{')` points into the list, at a `'{'`. -/
theorem firstBrace_drop (l : List Char) (n : Nat) (h : firstBrace l = some n) :
    ∃ rest, l.drop n = '{' :: rest := by
  induction l generalizing n with
  | nil => simp [firstBrace] at h
  | cons c r ih =>
    by_cases hc : c = '{'
    · subst hc
      simp [firstBrace] at h
      subst h
      exact ⟨r, rfl⟩
    · simp [firstBrace, hc] at h
      obtain ⟨m, hm, rfl⟩ := h
      obtain ⟨rest, hrest⟩ := ih m hm
      exact ⟨rest, by simpa using hrest⟩

/-- No `'{'` occurs strictly before the index found by `find('{')`. -/
theorem firstBrace_min (l : List Char) (n : Nat) (h : firstBrace l = some n) :
    ∀ j, j < n → l.get? j ≠ some '{' := by
  induction l generalizing n with
  | nil => simp [firstBrace] at h
  | cons c r ih =>
    by_cases hc : c = '{'
    · subst hc
      simp [firstBrace] at h
      subst h
      intro j hj
      exact absurd hj (by omega)
    · simp [firstBrace, hc] at h
      obtain ⟨m, hm, rfl⟩ := h
      intro j hj
      cases j with
      | zero => simpa using hc
      | succ j2 =>
        simpa using ih m hm j2 (by omega)

/-- `find('{')` is stable under appending to the right. -/
theorem firstBrace_append_some (l s : List Char) (n : Nat)
    (h : firstBrace l = some n) : firstBrace (l ++ s) = some n := by
  induction l generalizing n with
  | nil => simp [firstBrace] at h
  | cons c r ih =>
    by_cases hc : c = '{'
    · subst hc
      simp [firstBrace] at h ⊢
      exact h
    · simp [firstBrace, hc] at h ⊢
      obtain ⟨m, hm, rfl⟩ := h
      exact ⟨m, ih m hm, rfl⟩

/-- Prepending brace-free text shifts `find('{')` by its length. -/
theorem firstBrace_prepend (a l : List Char) (ha : ∀ c ∈ a, c ≠ '{') :
    firstBrace (a ++ l) = (firstBrace l).map (· + a.length) := by
  induction a with
  | nil =>
    cases hfb : firstBrace l <;> simp [hfb]
  | cons c r ih =>
    have hc : c ≠ '{' := ha c (by simp)
    have hr : ∀ x ∈ r, x ≠ '{' := fun x hx => ha x (by simp [hx])
    rw [List.cons_append]
    rw [show firstBrace (c :: (r ++ l)) = (firstBrace (r ++ l)).map (· + 1) by
      simp [firstBrace, hc]]
    rw [ih hr]
    cases hfb : firstBrace l
    · simp
    · simp only [Option.map_some', List.length_cons]
      congr 1
      try omega

theorem charDepth_open : charDepth '{' = 1 := rfl

theorem charDepth_close : charDepth '}' = -1 := rfl

theorem charDepth_other (c : Char) (h1 : c ≠ '{') (h2 : c ≠ '}') :
    charDepth c = 0 := by
  simp [charDepth, h1, h2]

theorem braceLoop_cons_open (r : List Char) (cnt : Int) (i : Nat) :
    braceLoop ('{' :: r) cnt i = braceLoop r (cnt + 1) (i + 1) := by
  simp [braceLoop]

theorem braceLoop_cons_close_done (r : List Char) (cnt : Int) (i : Nat)
    (hz : cnt - 1 = 0) : braceLoop ('}' :: r) cnt i = some (i + 1) := by
  simp [braceLoop, hz]

theorem braceLoop_cons_close (r : List Char) (cnt : Int) (i : Nat)
    (hz : ¬cnt - 1 = 0) : braceLoop ('}' :: r) cnt i = braceLoop r (cnt - 1) (i + 1) := by
  simp [braceLoop, hz]

theorem braceLoop_cons_other (c : Char) (r : List Char) (cnt : Int) (i : Nat)
    (h1 : c ≠ '{') (h2 : c ≠ '}') :
    braceLoop (c :: r) cnt i = braceLoop r cnt (i + 1) := by
  simp [braceLoop, h1, h2]

/-- The matching loop never reports an end inside brace-free text. -/
theorem braceLoop_noBraces (s : List Char) (cnt : Int) (i : Nat)
    (hs : ∀ c ∈ s, c ≠ '{' ∧ c ≠ '}') : braceLoop s cnt i = none := by
  induction s generalizing cnt i with
  | nil => rfl
  | cons c r ih =>
    have hc := hs c (by simp)
    have hr : ∀ x ∈ r, x ≠ '{' ∧ x ≠ '}' := fun x hx => hs x (by simp [hx])
    rw [braceLoop_cons_other c r cnt i hc.1 hc.2]
    exact ih _ _ hr

/-- A successful match is unaffected by appending text. -/
theorem braceLoop_append_some (l s : List Char) (cnt : Int) (i j : Nat)
    (h : braceLoop l cnt i = some j) : braceLoop (l ++ s) cnt i = some j := by
  induction l generalizing cnt i with
  | nil => simp [braceLoop] at h
  | cons c r ih =>
    rw [List.cons_append]
    by_cases hc : c = '{'
    · subst hc
      rw [braceLoop_cons_open] at h ⊢
      exact ih _ _ h
    · by_cases hc2 : c = '}'
      · subst hc2
        by_cases hz : cnt - 1 = 0
        · rw [braceLoop_cons_close_done _ _ _ hz] at h ⊢
          exact h
        · rw [braceLoop_cons_close _ _ _ hz] at h ⊢
          exact ih _ _ h
      · rw [braceLoop_cons_other c _ _ _ hc hc2] at h ⊢
        exact ih _ _ h

/-- A failed match continues into the appended text with the
accumulated counter and index. -/
theorem braceLoop_append_none (l s : List Char) (cnt : Int) (i : Nat)
    (h : braceLoop l cnt i = none) :
    braceLoop (l ++ s) cnt i = braceLoop s (cnt + depthNet l) (i + l.length) := by
  induction l generalizing cnt i with
  | nil => simp [depthNet]
  | cons c r ih =>
    rw [List.cons_append]
    by_cases hc : c = '{'
    · subst hc
      rw [braceLoop_cons_open] at h ⊢
      rw [ih _ _ h, depthNet_cons, charDepth_open]
      congr 1
      · ring
      · simp
        omega
    · by_cases hc2 : c = '}'
      · subst hc2
        by_cases hz : cnt - 1 = 0
        · rw [braceLoop_cons_close_done _ _ _ hz] at h
          simp at h
        · rw [braceLoop_cons_close _ _ _ hz] at h ⊢
          rw [ih _ _ h, depthNet_cons, charDepth_close]
          congr 1
          · ring
          · simp
            omega
      · rw [braceLoop_cons_other c _ _ _ hc hc2] at h ⊢
        rw [ih _ _ h, depthNet_cons, charDepth_other c hc hc2]
        congr 1
        · ring
        · simp
          omega

/-- Characterisation of a successful match: starting from counter
`cnt ≥ 1`, the loop returns the first position (measured from `i`) at
which the running counter `cnt + depthNet (l.take m)` hits zero. -/
theorem braceLoop_some_spec (l : List Char) (cnt : Int) (i j : Nat)
    (hcnt : 1 ≤ cnt) (h : braceLoop l cnt i = some j) :
    ∃ m, 0 < m ∧ m ≤ l.length ∧ j = i + m ∧ cnt + depthNet (l.take m) = 0 ∧
      ∀ k, 0 < k → k < m → cnt + depthNet (l.take k) ≠ 0 := by
  induction l generalizing cnt i with
  | nil => simp [braceLoop] at h
  | cons c r ih =>
    by_cases hc : c = '{'
    · subst hc
      rw [braceLoop_cons_open] at h
      obtain ⟨m, hm0, hmle, hj, hz, hfirst⟩ := ih (cnt + 1) (i + 1) (by omega) h
      refine ⟨m + 1, by omega, by simp; omega, by omega, ?_, ?_⟩
      · rw [List.take_succ_cons, depthNet_cons, charDepth_open]
        omega
      · intro k hk0 hkm
        cases k with
        | zero => omega
        | succ k2 =>
          rw [List.take_succ_cons, depthNet_cons, charDepth_open]
          cases Nat.eq_zero_or_pos k2 with
          | inl hk2 =>
            subst hk2
            rw [List.take_zero, depthNet_nil]
            omega
          | inr hk2 =>
            have := hfirst k2 hk2 (by omega)
            omega
    · by_cases hc2 : c = '}'
      · subst hc2
        by_cases hz : cnt - 1 = 0
        · rw [braceLoop_cons_close_done _ _ _ hz] at h
          have hj : j = i + 1 := by
            simpa using h.symm
          refine ⟨1, by omega, by simp, hj, ?_, ?_⟩
          · rw [List.take_succ_cons, List.take_zero, depthNet_cons, depthNet_nil,
              charDepth_close]
            omega
          · intro k hk0 hk1
            omega
        · rw [braceLoop_cons_close _ _ _ hz] at h
          obtain ⟨m, hm0, hmle, hj, hzr, hfirst⟩ := ih (cnt - 1) (i + 1) (by omega) h
          refine ⟨m + 1, by omega, by simp; omega, by omega, ?_, ?_⟩
          · rw [List.take_succ_cons, depthNet_cons, charDepth_close]
            omega
          · intro k hk0 hkm
            cases k with
            | zero => omega
            | succ k2 =>
              rw [List.take_succ_cons, depthNet_cons, charDepth_close]
              cases Nat.eq_zero_or_pos k2 with
              | inl hk2 =>
                subst hk2
                rw [List.take_zero, depthNet_nil]
                omega
              | inr hk2 =>
                have := hfirst k2 hk2 (by omega)
                omega
      · rw [braceLoop_cons_other c _ _ _ hc hc2] at h
        obtain ⟨m, hm0, hmle, hj, hzr, hfirst⟩ := ih cnt (i + 1) hcnt h
        have hcd : charDepth c = 0 := charDepth_other c hc hc2
        refine ⟨m + 1, by omega, by simp; omega, by omega, ?_, ?_⟩
        · rw [List.take_succ_cons, depthNet_cons, hcd]
          omega
        · intro k hk0 hkm
          cases k with
          | zero => omega
          | succ k2 =>
            rw [List.take_succ_cons, depthNet_cons, hcd]
            cases Nat.eq_zero_or_pos k2 with
            | inl hk2 =>
              subst hk2
              rw [List.take_zero, depthNet_nil]
              omega
            | inr hk2 =>
              have := hfirst k2 hk2 (by omega)
              omega

/-! ## Concrete inputs used by witnesses and counterexamples -/

/-- Environment with no reachable files and no network results. -/
def env0 : ExtractEnv :=
  { fileExists := fun _ => false
    readFileUtf8 := fun _ => .error "unreadable"
    urlExtract := fun _ => .ok none }

/-- The bytes of `<!DOCTYPE html>`. -/
def doctypeBytes : List Nat :=
  [60, 33, 68, 79, 67, 84, 89, 80, 69, 32, 104, 116, 109, 108, 62]

/-! ## C1 — `extract_content` error disposal -/

/-- C1 (amended): `extract_content` never raises — every branch,
including the `except Exception` handler, yields `Except.ok` — but a
failed extraction is reported as `None` (no text at all), not as a
degraded non-empty textual result: in particular a non-URL reference
naming a missing file returns `None`. -/
theorem C1_extract_content_amended :
    (∀ (env : ExtractEnv) (url : String), ∃ r, extract_content env url = .ok r) ∧
    (∀ (env : ExtractEnv) (p : String), ¬p.data.isEmpty →
      pyStartsWith p.data "http".data = false →
      env.fileExists p = false →
      extract_content env p = .ok none) := by
  constructor
  · intro env url
    unfold extract_content
    by_cases h : url.data.isEmpty
    · rw [if_pos h]
      exact ⟨none, rfl⟩
    · rw [if_neg h]
      cases hm : (if pyStartsWith url.data "http".data then env.urlExtract url
          else .ok (extract_from_file env url)) with
      | ok r => exact ⟨r, rfl⟩
      | error e => exact ⟨none, rfl⟩
  · intro env p h1 h2 h3
    unfold extract_content
    rw [if_neg h1, if_neg (by rw [h2]; simp)]
    unfold extract_from_file
    rw [h3]
    simp

/-- C1 witness: the amended statement evaluated at the empty
environment and the local path `resume.txt`. -/
theorem C1_extract_content_amended_witness :
    extract_content env0 "resume.txt" = .ok none ∧
    ∃ r, extract_content env0 "https://x.test/cv.pdf" = .ok r :=
  ⟨C1_extract_content_amended.2 env0 "resume.txt" (by decide) (by decide) rfl,
   C1_extract_content_amended.1 env0 "https://x.test/cv.pdf"⟩

/-- C1 counterexample: for the missing local file `resume.txt` the
entry point returns `Except.ok none` — no raised error, but also no
non-empty text, contradicting "always returns text". -/
theorem C1_counterexample :
    extract_content env0 "resume.txt" = .ok none ∧
    isNonEmptyText (extract_content env0 "resume.txt") = false :=
  ⟨rfl, rfl⟩

/-! ## C2 — resume-content truncation bound -/

/-- C2 (amended): the truncated resume text is bounded by
`50000 + 34 = 50034` characters, not by `50000`: text at most 50000
characters long passes through unchanged, and longer text becomes its
first 50000 characters with the 34-character truncation marker
appended, so the result of a cut is exactly 50034 characters and ends
with the marker. -/
theorem C2_truncation_amended (content : List Char) :
    (truncate_resume_content content).length ≤ 50034 ∧
    (content.length ≤ 50000 → truncate_resume_content content = content) ∧
    (50000 < content.length →
      truncate_resume_content content = content.take 50000 ++ truncationMarker ∧
      truncationMarker <:+ truncate_resume_content content ∧
      (truncate_resume_content content).length = 50034) := by
  have hm : truncationMarker.length = 34 := by rfl
  unfold truncate_resume_content maxResumeChars
  by_cases h : content.length > 50000
  · rw [if_pos h]
    refine ⟨?_, ?_, ?_⟩
    · rw [List.length_append, List.length_take, hm]
      omega
    · intro h2
      omega
    · intro _
      exact ⟨rfl, ⟨content.take 50000, rfl⟩,
        by rw [List.length_append, List.length_take, hm]; omega⟩
  · rw [if_neg h]
    exact ⟨by omega, fun _ => rfl, fun h2 => absurd h2 (by omega)⟩

/-- C2 witness: the amended statement evaluated at a 50001-character
text (cut) and at a 49-character text (passed through). -/
theorem C2_truncation_amended_witness :
    truncate_resume_content (List.replicate 50001 'a') =
      (List.replicate 50001 'a').take 50000 ++ truncationMarker ∧
    truncate_resume_content (List.replicate 49 'b') = List.replicate 49 'b' :=
  ⟨((C2_truncation_amended (List.replicate 50001 'a')).2.2
      (by rw [List.length_replicate]; omega)).1,
   (C2_truncation_amended (List.replicate 49 'b')).2.1
      (by rw [List.length_replicate]; omega)⟩

/-- C2 counterexample: a 50001-character resume text is handed on with
50034 characters — the marker is appended beyond the 50000-character
cut, so the claimed `≤ 50000` bound fails for every truncated input. -/
theorem C2_counterexample :
    (truncate_resume_content (List.replicate 50001 'a')).length = 50034 ∧
    ¬(truncate_resume_content (List.replicate 50001 'a')).length ≤ 50000 := by
  have hm : truncationMarker.length = 34 := by rfl
  have h : (truncate_resume_content (List.replicate 50001 'a')).length = 50034 := by
    unfold truncate_resume_content maxResumeChars
    rw [if_pos (by rw [List.length_replicate]; omega)]
    rw [List.length_append, List.length_take, List.length_replicate, hm]
    omega
  exact ⟨h, by omega⟩

/-! ## C7 — `<!DOCTYPE` detection (code bug) -/

/-- C7: the sniffer reads only `f.read(8)` — an 8-byte header — yet
compares it with `header.startswith(b'<!DOCTYPE')`, a 9-byte
signature, so the comparison can never succeed: the code's own comment
(`HTML signature: <!DOCTYPE or <html`) and the spec's precedence table
say such files are HTML, but `<!DOCTYPE html>` is classified by the
printable-ratio fallback as `txt`.  The first conjunct pins the
general fact for every byte string starting with `<!DOCTYPE`. -/
theorem C7_doctype_never_html :
    (∀ t : List Nat, detect_file_type (doctypeSig ++ t) ≠ "html") ∧
    detect_file_type doctypeBytes = "txt" := by
  constructor
  · intro t
    have hshape : detect_file_type (doctypeSig ++ t) =
        (if ((doctypeSig ++ t).take 1024).length = 0 then "unknown"
         else if 5 * (((doctypeSig ++ t).take 1024).countP (fun b => printableByte b)) >
             4 * ((doctypeSig ++ t).take 1024).length then "txt"
         else "unknown") := rfl
    rw [hshape]
    split
    · decide
    · split
      · decide
      · decide
  · rfl

/-- C7 witness: the general conjunct applied to the concrete tail of
`<!DOCTYPE html>` (its bytes after the 9-byte signature). -/
theorem C7_doctype_never_html_witness :
    detect_file_type (doctypeSig ++ [32, 104, 116, 109, 108, 62]) ≠ "html" :=
  C7_doctype_never_html.1 [32, 104, 116, 109, 108, 62]

/-! ## Lemmas about the field validator -/

theorem pyTruthy_str (s : String) : pyTruthy (.str s) = !s.data.isEmpty := rfl

theorem validateField_of_falsy (f : String) (v : JsonVal)
    (h : pyTruthy v = false) : validateField f v = .str "" := by
  unfold validateField
  rw [if_pos (by simp [h])]

/-- The exact sentinel passes through for every field. -/
theorem validateField_overq (f : String) :
    validateField f (.str "OVERQUALIFIED") = .str "OVERQUALIFIED" := by
  unfold validateField
  rw [if_neg (by decide)]
  by_cases h : f.data = "reasoning".data
  · rw [if_pos (by simp [h])]
  · rw [if_neg (by simp [h])]
    rfl

/-- A `%`-terminated string whose text with all `%` removed parses to
an int in range is kept verbatim (for percentage-bearing fields). -/
theorem validateField_keep_pct (f s : String) (k : Int)
    (hf : f.data ≠ "reasoning".data) (hend : pyEndsWith s "%" = true)
    (hparse : pyIntOfString (pyRemoveAll s '%') = some k)
    (h0 : 0 ≤ k) (h100 : k ≤ 100) :
    validateField f (.str s) = .str s := by
  have hne : s.data ≠ [] := by
    intro h0'
    rw [pyEndsWith, h0'] at hend
    exact absurd hend (by decide)
  have hovq : s.data ≠ "OVERQUALIFIED".data := by
    intro he
    rw [pyEndsWith, he] at hend
    exact absurd hend (by decide)
  have htr : pyTruthy (.str s) = true := by
    cases hd : s.data with
    | nil => exact absurd hd hne
    | cons a as => simp [pyTruthy_str, hd]
  unfold validateField
  rw [if_neg (by simp [htr]), if_neg (by simp [hf])]
  show validateStr s = JsonVal.str s
  unfold validateStr
  rw [if_neg (by simp [hovq]), if_pos hend]
  simp only [hparse]
  rw [if_pos ⟨h0, h100⟩]

/-- A truthy non-sentinel string that fails the percentage test is
reset to the empty string (for percentage-bearing fields). -/
theorem validateField_reset_str (f s : String) (hf : f.data ≠ "reasoning".data)
    (hovq : s.data ≠ "OVERQUALIFIED".data)
    (hbad : pyEndsWith s "%" = false ∨ pyIntOfString (pyRemoveAll s '%') = none ∨
      ∃ k, pyIntOfString (pyRemoveAll s '%') = some k ∧ ¬(0 ≤ k ∧ k ≤ 100)) :
    validateField f (.str s) = .str "" := by
  by_cases htr : pyTruthy (.str s) = true
  · unfold validateField
    rw [if_neg (by simp [htr]), if_neg (by simp [hf])]
    show validateStr s = JsonVal.str ""
    unfold validateStr
    rw [if_neg (by simp [hovq])]
    rcases hbad with hend | hp | ⟨k, hp, hrange⟩
    · rw [if_neg (by simp [hend])]
    · by_cases hend2 : pyEndsWith s "%" = true
      · rw [if_pos hend2]
        simp only [hp]
      · rw [if_neg hend2]
    · by_cases hend2 : pyEndsWith s "%" = true
      · rw [if_pos hend2]
        simp only [hp]
        rw [if_neg hrange]
      · rw [if_neg hend2]
  · exact validateField_of_falsy f (.str s) (by simpa using htr)

/-- Every non-string value of a percentage-bearing field is reset. -/
theorem validateField_not_str (f : String) (v : JsonVal)
    (hf : f.data ≠ "reasoning".data) (hv : ∀ s, v ≠ .str s) :
    validateField f v = .str "" := by
  by_cases htr : pyTruthy v = true
  · unfold validateField
    rw [if_neg (by simp [htr]), if_neg (by simp [hf])]
    cases v with
    | str s => exact absurd rfl (hv s)
    | null => rfl
    | bool b => rfl
    | num n => rfl
    | fnum m e => rfl
    | arr xs => rfl
    | obj kvs => rfl
  · exact validateField_of_falsy f v (by simpa using htr)

/-- The validator keeps `value` exactly when it is the literal
`"OVERQUALIFIED"` or a string ending in `'%'` whose text with every
`'%'` removed parses as a Python int in `[0, 100]`. -/
def keepsValue (v : JsonVal) : Prop :=
  v = .str "OVERQUALIFIED" ∨
  ∃ s k, v = .str s ∧ pyEndsWith s "%" = true ∧
    pyIntOfString (pyRemoveAll s '%') = some k ∧ 0 ≤ k ∧ k ≤ 100

/-! ## C5 — percentage-field validation (corrected) -/

/-- C5 (amended): a percentage-bearing field keeps its value exactly
when it is the literal `"OVERQUALIFIED"` or a string ending in `'%'`
whose text with *all* `'%'` characters removed (not the prefix before
the final `'%'`) parses as a Python int in `[0, 100]`; in every other
case — wrong range, unparseable text, non-string, empty or missing
value — it is reset to the empty string without raising. -/
theorem C5_validator_amended (f : String) (v : JsonVal)
    (hf : f.data ≠ "reasoning".data) :
    (keepsValue v → validateField f v = v) ∧
    (¬keepsValue v → validateField f v = .str "") := by
  constructor
  · intro hk
    rcases hk with h | ⟨s, k, rfl, hend, hparse, h0, h100⟩
    · subst h
      exact validateField_overq f
    · exact validateField_keep_pct f s k hf hend hparse h0 h100
  · intro hk
    cases v with
    | str s =>
      by_cases hovq : s.data = "OVERQUALIFIED".data
      · exfalso
        apply hk
        left
        have : s = "OVERQUALIFIED" := by
          cases s
          simp only at hovq
          rw [hovq]
        rw [this]
      · by_cases hend : pyEndsWith s "%" = true
        · cases hp : pyIntOfString (pyRemoveAll s '%') with
          | none =>
            exact validateField_reset_str f s hf hovq (Or.inr (Or.inl hp))
          | some k =>
            by_cases hrange : 0 ≤ k ∧ k ≤ 100
            · exact absurd (Or.inr ⟨s, k, rfl, hend, hp, hrange.1, hrange.2⟩) hk
            · exact validateField_reset_str f s hf hovq
                (Or.inr (Or.inr ⟨k, hp, hrange⟩))
        · exact validateField_reset_str f s hf hovq
            (Or.inl (by simpa using hend))
    | null => exact validateField_not_str f .null hf (by intro s h; cases h)
    | bool b => exact validateField_not_str f (.bool b) hf (by intro s h; cases h)
    | num n => exact validateField_not_str f (.num n) hf (by intro s h; cases h)
    | fnum m e => exact validateField_not_str f (.fnum m e) hf (by intro s h; cases h)
    | arr xs => exact validateField_not_str f (.arr xs) hf (by intro s h; cases h)
    | obj kvs => exact validateField_not_str f (.obj kvs) hf (by intro s h; cases h)

/-- C5 witness: the amended statement keeps `"85%"` and resets
`"abc"` for the `score` field. -/
theorem C5_validator_amended_witness :
    validateField "score" (.str "85%") = .str "85%" ∧
    validateField "score" (.str "abc") = .str "" :=
  ⟨(C5_validator_amended "score" (.str "85%") (by decide)).1
      (Or.inr ⟨"85%", 85, rfl, rfl, rfl, by decide, by decide⟩),
   (C5_validator_amended "score" (.str "abc") (by decide)).2
      (by
        intro h
        rcases h with h | ⟨s, k, hs, hend, _, _, _⟩
        · exact absurd (JsonVal.str.inj h) (by decide)
        · rw [← JsonVal.str.inj hs] at hend
          exact absurd hend (by decide))⟩

/-- C5 counterexample: `"5%0%"` ends in `'%'` and its numeric prefix
`"5%0"` (the text before the final `'%'`) does not parse as an
integer, so by the claim the field must be reset to the empty string —
but the validator keeps `"5%0%"` verbatim, because the source removes
every `'%'` before parsing. -/
theorem C5_counterexample :
    validateField "score" (.str "5%0%") = .str "5%0%" ∧
    pyEndsWith "5%0%" "%" = true ∧
    pyIntOfString (String.mk "5%0%".data.dropLast) = none ∧
    JsonVal.str "5%0%" ≠ .str "" :=
  ⟨rfl, rfl, rfl, fun h => absurd (JsonVal.str.inj h) (by decide)⟩

/-! ## C6 — OVERQUALIFIED case variants (corrected) -/

/-- C6 (amended): only the exact upper-case literal `"OVERQUALIFIED"`
is kept; any other casing fails the comparison `value !=
"OVERQUALIFIED"`, falls into percentage validation, does not end in
`'%'`, and is reset to the empty string — no normalization to the
sentinel happens. -/
theorem C6_case_sensitivity_amended :
    (∀ s : String, s.data ≠ "OVERQUALIFIED".data → pyEndsWith s "%" = false →
      validateField "score" (.str s) = .str "") ∧
    validateField "score" (.str "OVERQUALIFIED") = .str "OVERQUALIFIED" ∧
    validateField "score" (.str "Overqualified") = .str "" ∧
    validateField "score" (.str "OverQualified") = .str "" := by
  refine ⟨?_, rfl, rfl, rfl⟩
  intro s hs hend
  exact validateField_reset_str "score" s (by decide) hs (Or.inl hend)

/-- C6 witness: the amended statement applied to the lower-case
variant. -/
theorem C6_case_sensitivity_amended_witness :
    validateField "score" (.str "overqualified") = .str "" :=
  C6_case_sensitivity_amended.1 "overqualified" (by decide) rfl

/-- C6 counterexample: the case variants `"Overqualified"` and
`"overqualified"` are reset to the empty string, not normalized to the
sentinel `"OVERQUALIFIED"` as the claim states. -/
theorem C6_counterexample :
    validateField "score" (.str "Overqualified") = .str "" ∧
    validateField "score" (.str "overqualified") = .str "" ∧
    JsonVal.str "" ≠ .str "OVERQUALIFIED" :=
  ⟨rfl, rfl, fun h => absurd (JsonVal.str.inj h) (by decide)⟩

/-! ## C10 — all `%` characters removed before parsing (confirmed) -/

/-- C10: the validator removes every `'%'` (Python
`value.replace('%', '')`), not only the trailing one, before integer
parsing; hence a `%`-terminated string with interior percent signs
whose remaining digits form an in-range integer — such as `"5%0%"`,
which becomes `"50"` — is accepted and stored verbatim. -/
theorem C10_percent_stripping :
    (∀ (f s : String) (k : Int), f.data ≠ "reasoning".data →
      pyEndsWith s "%" = true → pyIntOfString (pyRemoveAll s '%') = some k →
      0 ≤ k → k ≤ 100 → validateField f (.str s) = .str s) ∧
    pyRemoveAll "5%0%" '%' = "50" ∧
    pyIntOfString (pyRemoveAll "5%0%" '%') = some 50 ∧
    validateField "score" (.str "5%0%") = .str "5%0%" := by
  refine ⟨?_, rfl, rfl, rfl⟩
  intro f s k hf hend hp h0 h100
  exact validateField_keep_pct f s k hf hend hp h0 h100

/-- C10 witness: the general statement applied to `"5%0%"` on the
`technical_skills_match` field. -/
theorem C10_percent_stripping_witness :
    validateField "technical_skills_match" (.str "5%0%") = .str "5%0%" :=
  C10_percent_stripping.1 "technical_skills_match" "5%0%" 50 (by decide) rfl rfl
    (by decide) (by decide)

/-! ## C8 — PLAIN_TEXT extraction encoding (corrected) -/

/-- Bytes that are invalid UTF-8 but valid latin-1: `abc` `0xE9` `def`. -/
def mixedBytes : List Nat := [97, 98, 99, 0xE9, 100, 101, 102]

/-- C8 (amended): because every `open` in the encoding loop passes
`errors='ignore'`, the utf-8 read never raises, so the loop always
stops at its first encoding: the decoded content is the UTF-8 decoding
with ill-formed bytes dropped (never the latin-1 decoding), and the
output is that content split into lines, stripped, with blank lines
removed and capped at the first 100 non-empty lines. -/
theorem C8_txt_extraction_amended (bytes : List Nat) :
    firstReadable txtEncodings bytes = some (nlTranslate (utf8DecodeIgnore bytes)) ∧
    (∀ r, extract_text_from_txt bytes = some r →
      r = joinNl (cleanTxtLines (nlTranslate (utf8DecodeIgnore bytes))) ∧
      (cleanTxtLines (nlTranslate (utf8DecodeIgnore bytes))).length ≤ 100 ∧
      ∀ line ∈ cleanTxtLines (nlTranslate (utf8DecodeIgnore bytes)), line ≠ []) := by
  refine ⟨rfl, ?_⟩
  intro r h
  rw [show extract_text_from_txt bytes =
      (if (nlTranslate (utf8DecodeIgnore bytes)).isEmpty then none
       else if (cleanTxtLines (nlTranslate (utf8DecodeIgnore bytes))).isEmpty then none
       else some (joinNl (cleanTxtLines (nlTranslate (utf8DecodeIgnore bytes)))))
      from rfl] at h
  split_ifs at h
  refine ⟨(Option.some.inj h).symm, ?_, ?_⟩
  · unfold cleanTxtLines
    rw [List.length_take]
    omega
  · intro line hline
    unfold cleanTxtLines at hline
    have hmem := List.take_subset 100 _ hline
    have := List.mem_filter.mp hmem
    simpa using this.2

/-- C8 witness: the amended statement evaluated on the mixed byte
string; its UTF-8-ignore decoding is `abcdef`. -/
theorem C8_txt_extraction_amended_witness :
    "abcdef".data = joinNl (cleanTxtLines (nlTranslate (utf8DecodeIgnore mixedBytes))) ∧
    (cleanTxtLines (nlTranslate (utf8DecodeIgnore mixedBytes))).length ≤ 100 ∧
    ∀ line ∈ cleanTxtLines (nlTranslate (utf8DecodeIgnore mixedBytes)), line ≠ [] :=
  (C8_txt_extraction_amended mixedBytes).2 "abcdef".data rfl

/-- C8 counterexample: `mixedBytes` is invalid UTF-8 and valid
latin-1, so the claim says the output is the latin-1 decoding
`"abcédef"`; the code instead outputs `"abcdef"` — the utf-8 read with
`errors='ignore'` never raises, so latin-1 is never tried, and the
ill-formed byte is silently dropped. -/
theorem C8_counterexample :
    utf8DecodeStrict mixedBytes = none ∧
    latin1Decode mixedBytes = "abcédef".data ∧
    specTxtExtract mixedBytes = some "abcédef".data ∧
    extract_text_from_txt mixedBytes = some "abcdef".data ∧
    "abcdef".data ≠ "abcédef".data :=
  ⟨rfl, rfl, rfl, rfl, by decide⟩

/-! ## Locator characterisation and example completions -/

/-- Characterisation of a successful locate: the reported start is the
first `'{'` (nothing before it is a brace-start), and the reported span
is the shortest non-empty prefix of the suffix whose net brace depth
returns to zero. -/
theorem locate_spec (text : List Char) (bs len : Nat)
    (hfb : firstBrace text = some bs)
    (hbl : braceLoop (text.drop bs) 0 0 = some len) :
    (∀ j, j < bs → text.get? j ≠ some '{') ∧
    (∃ rest, text.drop bs = '{' :: rest) ∧
    0 < len ∧ len ≤ (text.drop bs).length ∧
    depthNet ((text.drop bs).take len) = 0 ∧
    (∀ m, 0 < m → m < len → depthNet ((text.drop bs).take m) ≠ 0) := by
  obtain ⟨rest, hdrop⟩ := firstBrace_drop text bs hfb
  have hbl2 : braceLoop rest 1 1 = some len := by
    rw [hdrop, braceLoop_cons_open] at hbl
    simpa using hbl
  obtain ⟨m, hm0, hmle, hlen, hz, hfirst⟩ := braceLoop_some_spec rest 1 1 len (by omega) hbl2
  have hlen2 : len = m + 1 := by omega
  subst hlen2
  refine ⟨firstBrace_min text bs hfb, ⟨rest, hdrop⟩, by omega, ?_, ?_, ?_⟩
  · rw [hdrop]
    simp
    omega
  · rw [hdrop, List.take_succ_cons, depthNet_cons, charDepth_open]
    omega
  · intro k hk0 hkm
    rw [hdrop]
    cases k with
    | zero => omega
    | succ k2 =>
      rw [List.take_succ_cons, depthNet_cons, charDepth_open]
      cases Nat.eq_zero_or_pos k2 with
      | inl h0 =>
        subst h0
        rw [List.take_zero, depthNet_nil]
        omega
      | inr hpos =>
        have := hfirst k2 hpos (by omega)
        omega

/-- The spec's two-objects example, split at the object boundary. -/
def exFirstObject : List Char := "\x7b\"score\":\"85%\",\"reasoning\":\"ok\"\x7d".data

/-- The trailing second object of the two-objects example. -/
def exSecondTail : List Char := " \x7b\"score\":\"90%\",\"reasoning\":\"second\"\x7d".data

/-- The spec's two-objects example. -/
def exTwoObjects : List Char := exFirstObject ++ exSecondTail

/-- The spec's nested-wrapper example. -/
def exNested : List Char := "\x7b\"data\":\x7b\"score\":\"90%\",\"reasoning\":\"x\"\x7d\x7d".data

/-- A response whose `score` is invalid but whose `reasoning` is fine. -/
def exInvalidScore : List Char := "\x7b\"score\":\"150%\",\"reasoning\":\"ok\"\x7d".data

/-- The full seven-field record with the given `score` and `reasoning`
and all five breakdown fields empty. -/
def mkRecord (score reasoning : String) : List (String × JsonVal) :=
  [("score", .str score), ("technical_skills_match", .str ""),
   ("experience_relevance", .str ""), ("soft_skills_cultural_fit", .str ""),
   ("education_certifications", .str ""), ("career_progression", .str ""),
   ("reasoning", .str reasoning)]

/-! ## C3 — first balanced object selection (confirmed) -/

/-- C3: the parser selects exactly the substring from the first `'{'`
to its depth-balanced matching `'}'` (first conjunct: nothing before
the start is a `'{'`, the start is a `'{'`, and the span is the
shortest non-empty prefix with net depth zero), parses only that
object (second conjunct: any text after the balanced span — such as a
second concatenated object — leaves the result unchanged), uses only
the first object of the spec's two-objects example, and treats a
`score` one level below the top object as absent. -/
theorem C3_locator :
    (∀ (text : List Char) (bs len : Nat), firstBrace text = some bs →
      braceLoop (text.drop bs) 0 0 = some len →
      (∀ j, j < bs → text.get? j ≠ some '{') ∧
      (∃ rest, text.drop bs = '{' :: rest) ∧
      0 < len ∧ len ≤ (text.drop bs).length ∧
      depthNet ((text.drop bs).take len) = 0 ∧
      (∀ m, 0 < m → m < len → depthNet ((text.drop bs).take m) ≠ 0)) ∧
    (∀ (text : List Char) (bs len : Nat) (suffix : List Char),
      firstBrace text = some bs → braceLoop (text.drop bs) 0 0 = some len →
      extract_score_from_response (text ++ suffix) =
        extract_score_from_response text) ∧
    extract_score_from_response exTwoObjects = mkRecord "85%" "ok" ∧
    extract_score_from_response exNested = mkRecord "" "" := by
  refine ⟨locate_spec, ?_, rfl, rfl⟩
  intro text bs len suffix hfb hbl
  obtain ⟨-, ⟨rest, hdrop⟩, -, hlen_le, -, -⟩ := locate_spec text bs len hfb hbl
  have hbs_lt : bs < text.length := by
    by_contra hge
    rw [List.drop_eq_nil_of_le (by omega)] at hdrop
    cases hdrop
  have hfb2 : firstBrace (text ++ suffix) = some bs :=
    firstBrace_append_some text suffix bs hfb
  have hdrop2 : (text ++ suffix).drop bs = text.drop bs ++ suffix :=
    List.drop_append_of_le_length (by omega)
  have hbl2 : braceLoop ((text ++ suffix).drop bs) 0 0 = some len := by
    rw [hdrop2]
    exact braceLoop_append_some _ _ _ _ _ hbl
  have htake : ((text ++ suffix).drop bs).take len = (text.drop bs).take len := by
    rw [hdrop2]
    exact List.take_append_of_le_length hlen_le
  simp only [extract_score_from_response, hfb, hfb2, hbl, hbl2, htake]

/-- C3 witness: the characterisation and suffix-irrelevance applied to
the spec's two-objects example (start 0, span 32). -/
theorem C3_locator_witness :
    extract_score_from_response (exFirstObject ++ exSecondTail) =
      extract_score_from_response exFirstObject ∧
    depthNet ((exTwoObjects.drop 0).take 32) = 0 :=
  ⟨C3_locator.2.1 exFirstObject 0 32 exSecondTail rfl rfl,
   (C3_locator.1 exTwoObjects 0 32 rfl rfl).2.2.2.2.1⟩

/-! ## C4 — no-JSON and malformed-JSON disposal (confirmed) -/

/-- C4: a completion with no `'{'` yields the fixed `No JSON found`
record; one whose brace depth never returns to zero after the first
`'{'` yields the fixed `Error parsing AI response` record — in both
cases with empty score and without raising — and an invalid value in
one field (here a `score` of `"150%"`) does not abort extraction of
the remaining fields. -/
theorem C4_failure_records :
    (∀ text : List Char, (∀ c ∈ text, c ≠ '{') →
      extract_score_from_response text = noJsonRecord) ∧
    (∀ (text : List Char) (bs : Nat), firstBrace text = some bs →
      (∀ m, m < (text.drop bs).length + 1 → 0 < m →
        depthNet ((text.drop bs).take m) ≠ 0) →
      extract_score_from_response text = parseErrorRecord) ∧
    extract_score_from_response exInvalidScore = mkRecord "" "ok" := by
  refine ⟨?_, ?_, rfl⟩
  · intro text h
    have hfb : firstBrace text = none := (firstBrace_eq_none_iff text).mpr h
    simp only [extract_score_from_response, hfb]
  · intro text bs hfb hdep
    obtain ⟨rest, hdrop⟩ := firstBrace_drop text bs hfb
    cases hbl : braceLoop (text.drop bs) 0 0 with
    | none => simp only [extract_score_from_response, hfb, hbl]
    | some j =>
      exfalso
      have hbl2 : braceLoop rest 1 1 = some j := by
        rw [hdrop, braceLoop_cons_open] at hbl
        simpa using hbl
      obtain ⟨m, hm0, hmle, hj, hz, -⟩ := braceLoop_some_spec rest 1 1 j (by omega) hbl2
      have hdlen : (text.drop bs).length = rest.length + 1 := by
        rw [hdrop]
        rfl
      apply hdep (m + 1) (by omega) (by omega)
      rw [hdrop, List.take_succ_cons, depthNet_cons, charDepth_open]
      omega

/-- C4 witness: the two failure records evaluated at a brace-free
completion and at the spec's unterminated example. -/
theorem C4_failure_records_witness :
    extract_score_from_response "The resume looks strong overall.".data =
      noJsonRecord ∧
    extract_score_from_response "\x7b\"score\":\"85%\"".data = parseErrorRecord :=
  ⟨C4_failure_records.1 "The resume looks strong overall.".data (by decide),
   C4_failure_records.2.1 "\x7b\"score\":\"85%\"".data 0 rfl (by decide)⟩

/-! ## C9 — fenced-code wrapping is an identity (confirmed) -/

/-- C9: wrapping a completion in triple-backtick code fences with an
optional language tag (any tag without braces) yields the same parsed
record as the unwrapped completion: the fences lie outside the
brace-delimited substring, so the extracted object — and hence the
resulting record — is unchanged. -/
theorem C9_fence_identity (tag text : List Char)
    (htag : ∀ c ∈ tag, c ≠ '{' ∧ c ≠ '}') :
    extract_score_from_response
      (('`' :: '`' :: '`' :: (tag ++ ['\n'])) ++ text ++ ['\n', '`', '`', '`']) =
    extract_score_from_response text := by
  set pre : List Char := '`' :: '`' :: '`' :: (tag ++ ['\n']) with hpre
  set suf : List Char := ['\n', '`', '`', '`'] with hsuf
  have hpre_nb : ∀ c ∈ pre, c ≠ '{' := by
    intro c hc
    rw [hpre] at hc
    simp only [List.mem_cons, List.mem_append, List.mem_singleton] at hc
    rcases hc with rfl | rfl | rfl | hc | hc2
    · decide
    · decide
    · decide
    · exact (htag c hc).1
    · rcases hc2 with rfl | h
      · decide
      · cases h
  have hsuf_nb : ∀ c ∈ suf, c ≠ '{' ∧ c ≠ '}' := by
    rw [hsuf]
    decide
  rw [List.append_assoc]
  cases hfb : firstBrace text with
  | none =>
    have htext_nb : ∀ c ∈ text, c ≠ '{' := (firstBrace_eq_none_iff text).mp hfb
    have hall : ∀ c ∈ pre ++ (text ++ suf), c ≠ '{' := by
      intro c hc
      simp only [List.mem_append] at hc
      rcases hc with hc | hc | hc
      · exact hpre_nb c hc
      · exact htext_nb c hc
      · exact (hsuf_nb c hc).1
    have hfull : firstBrace (pre ++ (text ++ suf)) = none :=
      (firstBrace_eq_none_iff _).mpr hall
    simp only [extract_score_from_response, hfb, hfull]
  | some bs =>
    obtain ⟨rest, hdrop⟩ := firstBrace_drop text bs hfb
    have hbs_lt : bs < text.length := by
      by_contra hge
      rw [List.drop_eq_nil_of_le (by omega)] at hdrop
      cases hdrop
    have hts : firstBrace (text ++ suf) = some bs :=
      firstBrace_append_some text suf bs hfb
    have hfull : firstBrace (pre ++ (text ++ suf)) = some (bs + pre.length) := by
      rw [firstBrace_prepend pre _ hpre_nb, hts]
      rfl
    have hdropfull : (pre ++ (text ++ suf)).drop (bs + pre.length) =
        (text ++ suf).drop bs := by
      rw [List.drop_append_eq_append_drop, List.drop_eq_nil_of_le (by omega)]
      simp only [List.nil_append]
      congr 1
      omega
    have hdropts : (text ++ suf).drop bs = text.drop bs ++ suf :=
      List.drop_append_of_le_length (by omega)
    cases hbl : braceLoop (text.drop bs) 0 0 with
    | some len =>
      obtain ⟨-, -, -, hlen_le, -, -⟩ := locate_spec text bs len hfb hbl
      have hblfull : braceLoop ((pre ++ (text ++ suf)).drop (bs + pre.length)) 0 0 =
          some len := by
        rw [hdropfull, hdropts]
        exact braceLoop_append_some _ _ _ _ _ hbl
      have htake : ((pre ++ (text ++ suf)).drop (bs + pre.length)).take len =
          (text.drop bs).take len := by
        rw [hdropfull, hdropts]
        exact List.take_append_of_le_length hlen_le
      simp only [extract_score_from_response, hfull, hblfull, htake, hfb, hbl]
    | none =>
      have hblfull : braceLoop ((pre ++ (text ++ suf)).drop (bs + pre.length)) 0 0 =
          none := by
        rw [hdropfull, hdropts, braceLoop_append_none _ _ _ _ hbl]
        exact braceLoop_noBraces suf _ _ hsuf_nb
      simp only [extract_score_from_response, hfull, hblfull, hfb, hbl]

/-- C9 witness: wrapping the first-object example in fences carrying
the language tag `json` leaves the parsed record unchanged. -/
theorem C9_fence_identity_witness :
    extract_score_from_response
      (('`' :: '`' :: '`' :: ("json".data ++ ['\n'])) ++ exFirstObject ++
        ['\n', '`', '`', '`']) =
    extract_score_from_response exFirstObject :=
  C9_fence_identity "json".data exFirstObject (by decide)
